import Mathlib

/-!
Verification of the `serr` structured-error library.

A Go string is modelled as its sequence of runes (`List Char`), assuming valid
UTF-8, with `runeWidth` giving the UTF-8 encoded byte width of each rune so
that byte lengths and byte offsets (which the source mixes with rune counts in
`prefixRunes` and `Diff`) remain observable.

The structured-error type `sError` is modelled with an explicit heap
(`List HNode`, addresses are indices) because the source mutates receivers in
place, `CloneWrap` creates aliasing between errors, and cause chains may be
cyclic; the `recurs` guard list of each node is part of its heap node, exactly
as in the source.  Rendering (`Error()`) is given fuel semantics
(`errorFuel`); termination of the source's recursion is the theorem that the
result is independent of the fuel once the fuel exceeds the number of
not-currently-rendering nodes.
-/

set_option maxRecDepth 10000

namespace Serr

/-- UTF-8 encoded byte width of a rune (as Go `utf8.RuneLen` for valid runes). -/
def runeWidth (c : Char) : Nat :=
  if c.toNat < 0x80 then 1
  else if c.toNat < 0x800 then 2
  else if c.toNat < 0x10000 then 3
  else 4

/-- Byte length of a Go string modelled as its list of runes (`len(s)`). -/
def byteLen (s : List Char) : Nat := (s.map runeWidth).sum

/-- The constant `EllipsisRune = "…"` from the source. -/
def EllipsisRune : Char := Char.ofNat 0x2026

/-- `prefixRunes(input, n)`: the Go loop is `for i, r := range input`, where
`i` is the BYTE offset of rune `r` inside `input`; it stops at `i >= n`.
We accumulate the byte offset explicitly. -/
def prefixRunesAux (n : Nat) : List Char → Nat → List Char
  | [], _ => []
  | c :: rest, i => if n ≤ i then [] else c :: prefixRunesAux n rest (i + runeWidth c)

/-- `prefixRunes(input, n)` from the source. -/
def prefixRunes (input : List Char) (n : Nat) : List Char :=
  prefixRunesAux n input 0

/-- `suffixRunes(input, n)`: decode runes from the end while `count < n`,
collecting them back to front, then reverse; i.e. the last `min n length`
runes of `input`. -/
def suffixRunes (input : List Char) (n : Nat) : List Char :=
  (input.reverse.take n).reverse

/-- `Excerpt(s, width)` from the source.  `width` is a Go `int`; it is
modelled as `Nat` (the spec and all claims restrict to `w ≥ 0`).  In the one
place the source can go negative (`suffix--` when `width = 0`), Go's `-1`
and the `Nat` truncation to `0` both make `suffixRunes` return the empty
string, so the model agrees with the source there. -/
def Excerpt (s : List Char) (width : Nat) : List Char :=
  let cnt := s.length
  if cnt ≤ width then s
  else
    let p := width / 2
    let sfx := if width ≤ cnt ∧ width % 2 = 0 then p - 1 else p
    prefixRunes s p ++ EllipsisRune :: suffixRunes s sfx

/-- The rune-by-rune lockstep scan of `Diff`: advance while the heads match,
counting matches.  The source has this loop twice (once from the front, once
from the back); the backward scan is this same loop run on the reversed
remainders. -/
def diffScan : List Char → List Char → Nat → List Char × List Char × Nat
  | c1 :: r1, c2 :: r2, s =>
    if c1 = c2 then diffScan r1 r2 (s + 1) else (c1 :: r1, c2 :: r2, s)
  | l1, l2, s => (l1, l2, s)

/-- `Diff(s1, s2, n)` from the source.  Note the threshold test on each
differing middle is on its BYTE length (`len(b1) > n`) while `Excerpt`
budgets by rune count.  `n` is a Go `int`, modelled as `Nat` (the spec and
tests use non-negative budgets only). -/
def Diff (s1 s2 : List Char) (n : Nat) : List Char × List Char × Nat × Nat :=
  let front := diffScan s1 s2 0
  let b1 := front.1
  let b2 := front.2.1
  let start := front.2.2
  if byteLen b1 + byteLen b2 = 0 then ([], [], start, 0)
  else
    let back := diffScan b1.reverse b2.reverse 0
    let m1 := back.1.reverse
    let m2 := back.2.1.reverse
    let o1 := if n < byteLen m1 then Excerpt m1 n else m1
    let o2 := if n < byteLen m2 then Excerpt m2 n else m2
    (o1, o2, start, back.2.2)

/-- Number of equal leading runes of two strings.  This is the spec-side
description of "common prefix (by rune)", used to characterise what `Diff`'s
scanning loops compute. -/
def commonPrefixLen : List Char → List Char → Nat
  | c1 :: r1, c2 :: r2 => if c1 = c2 then commonPrefixLen r1 r2 + 1 else 0
  | _, _ => 0

/-- Number of equal trailing runes of two strings. -/
def commonSuffixLen (l1 l2 : List Char) : Nat :=
  commonPrefixLen l1.reverse l2.reverse

/-- Modelled from the spec's words (for comparison with `Diff`): the
pre-excerpt differing middle region of `s1`, i.e. `s1` with the common prefix
and then the common suffix of the remainders removed. -/
def specMid1 (s1 s2 : List Char) : List Char :=
  let k := commonPrefixLen s1 s2
  let r1 := s1.drop k
  let r2 := s2.drop k
  r1.take (r1.length - commonSuffixLen r1 r2)

/-- Modelled from the spec's words: the pre-excerpt differing middle region
of `s2`. -/
def specMid2 (s1 s2 : List Char) : List Char :=
  let k := commonPrefixLen s1 s2
  let r1 := s1.drop k
  let r2 := s2.drop k
  r2.take (r2.length - commonSuffixLen r1 r2)

theorem runeWidth_pos (c : Char) : 0 < runeWidth c := by
  unfold runeWidth
  split
  · omega
  · split
    · omega
    · split <;> omega

theorem byteLen_eq_zero {l : List Char} : byteLen l = 0 ↔ l = [] := by
  cases l with
  | nil => simp [byteLen]
  | cons c r =>
    simp only [byteLen, List.map_cons, List.sum_cons]
    have := runeWidth_pos c
    constructor
    · intro hh; omega
    · intro hh; cases hh

theorem commonPrefixLen_le_left : ∀ l1 l2 : List Char, commonPrefixLen l1 l2 ≤ l1.length := by
  intro l1
  induction l1 with
  | nil => intro l2; cases l2 <;> simp [commonPrefixLen]
  | cons c1 r1 ih =>
    intro l2
    cases l2 with
    | nil => simp [commonPrefixLen]
    | cons c2 r2 =>
      by_cases hc : c1 = c2 <;> simp [commonPrefixLen, hc]
      exact ih r2

theorem commonPrefixLen_le_right : ∀ l1 l2 : List Char, commonPrefixLen l1 l2 ≤ l2.length := by
  intro l1
  induction l1 with
  | nil => intro l2; cases l2 <;> simp [commonPrefixLen]
  | cons c1 r1 ih =>
    intro l2
    cases l2 with
    | nil => simp [commonPrefixLen]
    | cons c2 r2 =>
      by_cases hc : c1 = c2 <;> simp [commonPrefixLen, hc]
      exact ih r2

theorem commonPrefixLen_self : ∀ l : List Char, commonPrefixLen l l = l.length := by
  intro l
  induction l with
  | nil => simp [commonPrefixLen]
  | cons c r ih => simp [commonPrefixLen, ih]

/-- The forward scan of `Diff` drops exactly the common prefix and counts it. -/
theorem diffScan_eq : ∀ (l1 l2 : List Char) (s : Nat),
    diffScan l1 l2 s =
      (l1.drop (commonPrefixLen l1 l2), l2.drop (commonPrefixLen l1 l2),
        s + commonPrefixLen l1 l2) := by
  intro l1
  induction l1 with
  | nil => intro l2 s; cases l2 <;> simp [diffScan, commonPrefixLen]
  | cons c1 r1 ih =>
    intro l2 s
    cases l2 with
    | nil => simp [diffScan, commonPrefixLen]
    | cons c2 r2 =>
      by_cases hc : c1 = c2
      · simp only [diffScan, commonPrefixLen, if_pos hc]
        rw [ih r2 (s + 1)]
        subst hc
        simp [List.drop_succ_cons]
        omega
      · simp [diffScan, commonPrefixLen, hc]

theorem reverse_drop_reverse (l : List Char) (j : Nat) :
    (l.reverse.drop j).reverse = l.take (l.length - j) := by
  rw [List.reverse_drop, List.reverse_reverse, List.length_reverse]

/-- C2: the claim that `runeCount (Excerpt s w) = min w (runeCount s)` for
every string fails on the code: `prefixRunes` compares the byte offset
produced by Go's `range` against the rune budget `n`, so for the 7-rune
string of two-byte runes `"ééééééé"` and width 5 the result has 4 runes,
not `min 5 7 = 5`.  Width 0 on a nonempty string also fails: the result is
the bare ellipsis, 1 rune instead of 0.  (On ASCII input with positive
width the property does hold, as the last two conjuncts show.) -/
theorem excerpt_length_code_bug :
    (Excerpt (List.replicate 7 (Char.ofNat 0xE9)) 5).length = 4
    ∧ min 5 (List.replicate 7 (Char.ofNat 0xE9)).length = 5
    ∧ (4 : Nat) ≠ 5
    ∧ (Excerpt "AB".toList 0).length = 1
    ∧ min 0 "AB".toList.length = 0
    ∧ (Excerpt "ABCDEFGHIJ".toList 7).length = min 7 "ABCDEFGHIJ".toList.length
    ∧ (Excerpt "ABCDEFGHIJ".toList 13).length = min 13 "ABCDEFGHIJ".toList.length := by
  refine ⟨by decide, by decide, by decide, by decide, by decide, by decide, by decide⟩

/-- C5: for `runeCount s > w` the claim says the output is the first `w/2`
runes, an ellipsis, and the last `w/2` (odd `w`) or `w/2 - 1` (even `w`)
runes.  Both ASCII scenarios hold (first two conjuncts), but the general
claim fails on the code: for the 7-rune string of two-byte runes and even
width 4 the prefix kept is 1 rune (byte offset 2 already reaches the budget
2), not the first 2 runes, so the output is `"é…é"` instead of `"éé…é"`. -/
theorem excerpt_shape_code_bug :
    Excerpt "ABCDEFGHIJ".toList 7 = "ABC".toList ++ EllipsisRune :: "HIJ".toList
    ∧ Excerpt "ABCDEFGHIJ".toList 3 = "A".toList ++ EllipsisRune :: "J".toList
    ∧ Excerpt (List.replicate 7 (Char.ofNat 0xE9)) 4
        = [Char.ofNat 0xE9, EllipsisRune, Char.ofNat 0xE9]
    ∧ [Char.ofNat 0xE9, EllipsisRune, Char.ofNat 0xE9]
        ≠ (List.replicate 7 (Char.ofNat 0xE9)).take 2
            ++ EllipsisRune :: [Char.ofNat 0xE9] := by
  refine ⟨by decide, by decide, by decide, by decide⟩

/-- C6: each differing middle region of `Diff(s1, s2, n)` is passed through
`Excerpt(mid, n)` exactly when its BYTE length exceeds `n`, and returned
unmodified otherwise, where the middle regions are the spec-side
`specMid1`/`specMid2` (common prefix stripped, then common suffix of the
remainders stripped). -/
theorem diff_excerpt_threshold (s1 s2 : List Char) (n : Nat) :
    (Diff s1 s2 n).1
      = (if n < byteLen (specMid1 s1 s2) then Excerpt (specMid1 s1 s2) n
         else specMid1 s1 s2)
    ∧ (Diff s1 s2 n).2.1
      = (if n < byteLen (specMid2 s1 s2) then Excerpt (specMid2 s1 s2) n
         else specMid2 s1 s2) := by
  unfold Diff specMid1 specMid2
  rw [diffScan_eq s1 s2 0]
  simp only
  by_cases hz : byteLen (s1.drop (commonPrefixLen s1 s2))
      + byteLen (s2.drop (commonPrefixLen s1 s2)) = 0
  · have h1 : s1.drop (commonPrefixLen s1 s2) = [] := byteLen_eq_zero.mp (by omega)
    have h2 : s2.drop (commonPrefixLen s1 s2) = [] := byteLen_eq_zero.mp (by omega)
    rw [if_pos hz, h1, h2]
    simp [byteLen, Excerpt]
  · rw [if_neg hz]
    rw [diffScan_eq]
    simp only
    rw [reverse_drop_reverse, reverse_drop_reverse]
    simp only [commonSuffixLen]
    exact ⟨trivial, trivial⟩

/-- C7: `Diff` returns a common-prefix rune count and a common-suffix rune
count such that, for each input, prefix count + rune count of that input's
pre-excerpt differing region + suffix count equals that input's rune count;
and identical inputs give `Diff(s, s, n) = ("", "", runeCount s, 0)`. -/
theorem diff_counts (s1 s2 : List Char) (n : Nat) :
    (Diff s1 s2 n).2.2.1 + (specMid1 s1 s2).length + (Diff s1 s2 n).2.2.2 = s1.length
    ∧ (Diff s1 s2 n).2.2.1 + (specMid2 s1 s2).length + (Diff s1 s2 n).2.2.2 = s2.length
    ∧ ∀ s : List Char, Diff s s n = ([], [], s.length, 0) := by
  have hk1 := commonPrefixLen_le_left s1 s2
  have hk2 := commonPrefixLen_le_right s1 s2
  refine ⟨?_, ?_, ?_⟩
  · unfold Diff specMid1
    rw [diffScan_eq s1 s2 0]
    simp only
    by_cases hz : byteLen (s1.drop (commonPrefixLen s1 s2))
        + byteLen (s2.drop (commonPrefixLen s1 s2)) = 0
    · have h1 : s1.drop (commonPrefixLen s1 s2) = [] := byteLen_eq_zero.mp (by omega)
      have h1l := congrArg List.length h1
      rw [List.length_drop] at h1l
      simp only [List.length_nil] at h1l
      rw [if_pos hz, h1]
      simp only [List.take_nil, List.length_nil]
      omega
    · rw [if_neg hz]
      rw [diffScan_eq]
      simp only [commonSuffixLen]
      have hj : commonPrefixLen (s1.drop (commonPrefixLen s1 s2)).reverse
          (s2.drop (commonPrefixLen s1 s2)).reverse
            ≤ (s1.drop (commonPrefixLen s1 s2)).length := by
        have := commonPrefixLen_le_left (s1.drop (commonPrefixLen s1 s2)).reverse
          (s2.drop (commonPrefixLen s1 s2)).reverse
        rwa [List.length_reverse] at this
      rw [List.length_take, List.length_drop]
      rw [List.length_drop] at hj
      omega
  · unfold Diff specMid2
    rw [diffScan_eq s1 s2 0]
    simp only
    by_cases hz : byteLen (s1.drop (commonPrefixLen s1 s2))
        + byteLen (s2.drop (commonPrefixLen s1 s2)) = 0
    · have h2 : s2.drop (commonPrefixLen s1 s2) = [] := byteLen_eq_zero.mp (by omega)
      have h2l := congrArg List.length h2
      rw [List.length_drop] at h2l
      simp only [List.length_nil] at h2l
      rw [if_pos hz, h2]
      simp only [List.take_nil, List.length_nil]
      omega
    · rw [if_neg hz]
      rw [diffScan_eq]
      simp only [commonSuffixLen]
      have hj : commonPrefixLen (s1.drop (commonPrefixLen s1 s2)).reverse
          (s2.drop (commonPrefixLen s1 s2)).reverse
            ≤ (s2.drop (commonPrefixLen s1 s2)).length := by
        have := commonPrefixLen_le_right (s1.drop (commonPrefixLen s1 s2)).reverse
          (s2.drop (commonPrefixLen s1 s2)).reverse
        rwa [List.length_reverse] at this
      rw [List.length_take, List.length_drop]
      rw [List.length_drop] at hj
      omega
  · intro s
    unfold Diff
    rw [diffScan_eq s s 0, commonPrefixLen_self, List.drop_length]
    simp [byteLen]

/-- A value stored in an `sError` args list (Go `any`); strings and ints
cover everything the spec and the claims exercise. -/
inductive GoVal where
  | str (s : String)
  | int (n : Int)
  deriving DecidableEq

/-- A Go `error` value: either a plain error (as produced by `errors.New`,
identified by its message) or a pointer to an `sError` heap node. -/
inductive HErr where
  | base (msg : String)
  | ptr (a : Nat)
  deriving DecidableEq

/-- One `sError` struct on the heap.  `msg` is the embedded `error` field
(every constructor the claims use goes through `New`, i.e. `errors.New(msg)`),
`cause` is the `err` field (`none` = Go `nil`), and `recurs` is the node's
guard list of addresses currently being rendered (the source only ever
appends the node itself to its own list). -/
structure HNode where
  msg : String
  cause : Option HErr
  args : List GoVal
  validArgs : List String
  recurs : List Nat
  sealed : Bool
  locked : Bool
  cloneWrapped : Bool
  deriving DecidableEq

/-- The heap: addresses are list indices. -/
abbrev Heap := List HNode

/-- Go `fmt.Sprintf("%v", v)` for the values we model. -/
def fmtV : GoVal → String
  | .str s => s
  | .int n => toString n

/-- `argsString()` from the source: one `" [key=value]"` segment per pair
(`i < len(args)-1; i += 2`, so a trailing odd element is dropped); the key is
rendered with `%v`, a string value is single-quoted, other values use `%v`. -/
def argsString : List GoVal → String
  | k :: v :: rest =>
      " [" ++ fmtV k ++ "=" ++
        (match v with
         | .str s => "\x27" ++ s ++ "\x27"
         | v2 => fmtV v2) ++ "]" ++ argsString rest
  | _ => ""

/-- `New(msg)`: allocate `&sError{error: errors.New(msg)}`; returns the new
heap and the address of the new node. -/
def goNew (h : Heap) (msg : String) : Heap × Nat :=
  (h ++ [{ msg := msg, cause := none, args := [], validArgs := [], recurs := [],
           sealed := false, locked := false, cloneWrapped := false }], h.length)

/-- `CloneWrap()`: shallow-clone the node (`Clone` copies `error`, `err`,
`args`, `validArgs`, `recurs`, `sealed` and leaves `locked`/`cloneWrapped`
zero), then set the clone's `cloneWrapped` and point its `err` at the
receiver. -/
def cloneWrap (h : Heap) (a : Nat) : Heap × Nat :=
  match h[a]? with
  | none => (h, a)
  | some se =>
      (h ++ [{ msg := se.msg, cause := some (.ptr a), args := se.args,
               validArgs := se.validArgs, recurs := se.recurs, sealed := se.sealed,
               locked := false, cloneWrapped := true }], h.length)

/-- `Args(args...)`: `chkArgs` panics (`none`) on an odd count, else the
receiver's args list is replaced and the receiver is clone-wrapped. -/
def goArgs (h : Heap) (a : Nat) (args : List GoVal) : Option (Heap × Nat) :=
  if args.length % 2 ≠ 0 then none
  else
    match h[a]? with
    | none => none
    | some se => some (cloneWrap (h.set a { se with args := args }) a)

/-- `Err(err, args...)`: set the receiver's `err`, apply `Args` when extra
args were passed (note the receiver is then rebound to the `Args` result
before the final `CloneWrap`). -/
def goErr (h : Heap) (a : Nat) (c : HErr) (args : List GoVal) : Option (Heap × Nat) :=
  match h[a]? with
  | none => none
  | some se =>
      if args.length = 0 then
        some (cloneWrap (h.set a { se with cause := some c }) a)
      else
        match goArgs (h.set a { se with cause := some c }) a args with
        | none => none
        | some p => some (cloneWrap p.1 p.2)

/-- `Wrap(err, msg, args...) = New(msg).Err(err)`, then `Args` when extra
args were passed. -/
def goWrap (h : Heap) (c : HErr) (msg : String) (args : List GoVal) : Option (Heap × Nat) :=
  match goErr (goNew h msg).1 (goNew h msg).2 c [] with
  | none => none
  | some q =>
      if args.length = 0 then some q
      else goArgs q.1 q.2 args

/-- `Unwrap()`: the `err` field of the node. -/
def goUnwrap (h : Heap) (a : Nat) : Option HErr :=
  match h[a]? with
  | none => none
  | some se => se.cause

/-- `ValidArgs(keys...)`: panics (`none`) when the node is already sealed,
else records the keys and seals the node; returns the same node. -/
def goValidArgs (h : Heap) (a : Nat) (keys : List String) : Option (Heap × Nat) :=
  match h[a]? with
  | none => none
  | some se =>
      if se.sealed then none
      else some (h.set a { se with validArgs := keys, sealed := true }, a)

/-- One `slog.Attr` pair of `Attrs()`: `args[2i]` must be a string key
(else the source panics), paired with `args[2i+1]`. -/
def pairAt (args : List GoVal) (i : Nat) : Option (String × GoVal) :=
  match args[2 * i]? with
  | some (.str k) =>
      match args[2 * i + 1]? with
      | some v => some (k, v)
      | none => none
  | _ => none

/-- `Attrs()` over an args list: `numArgs/2` pairs; `none` models the panic
on a non-string key. -/
def attrsOf (args : List GoVal) : Option (List (String × GoVal)) :=
  (List.range (args.length / 2)).mapM (pairAt args)

/-- `Attrs()` on a node. -/
def goAttrs (h : Heap) (a : Nat) : Option (List (String × GoVal)) :=
  match h[a]? with
  | none => none
  | some se => attrsOf se.args

/-- `Attr(key)`: scan `Attrs()` for the first pair with the key; the inner
`Option` is the `found` flag (with the zero `Attr` collapsed to `none`). -/
def goAttr (h : Heap) (a : Nat) (key : String) : Option (Option (String × GoVal)) :=
  (goAttrs h a).map (fun l => l.find? (fun p => p.1 == key))

/-- `recursing()` on a node would report true at address `a`; `unmarkedAt`
is its negation, used to count how many nodes are not currently rendering. -/
def unmarkedAt (h : Heap) (a : Nat) : Bool :=
  match h[a]? with
  | some nd => !(nd.recurs.contains a)
  | none => false

/-- Number of heap nodes not currently registered in their own guard list. -/
def unmarkedCount (h : Heap) : Nat :=
  (List.range h.length).countP (unmarkedAt h)

/-- `Error()` with fuel semantics.  For a structured node: when `err` is nil
the result is `message + argsString`.  Otherwise `selfError()` runs: if the
node is in its own `recurs` list it contributes nothing and nothing is
mutated; else the node is pushed, the cause is rendered recursively (the
mutations to guard lists thread through the heap), and the node's list is
popped (`se.recurs[:len-1]`, i.e. `dropLast`).  In both cases the source
then unconditionally overwrites `s` with `se.error.Error() + se.argsString()`
(the `fmt.Sprintf("%s%s; %s", ...)` result is a dead store), so the returned
string is always `message + argsString`. -/
def errorFuel : Nat → Heap → HErr → String × Heap
  | 0, h, _ => ("", h)
  | _ + 1, h, .base m => (m, h)
  | f + 1, h, .ptr a =>
    match h[a]? with
    | none => ("", h)
    | some se =>
      match se.cause with
      | none => (se.msg ++ argsString se.args, h)
      | some c =>
        if se.recurs.contains a then
          (se.msg ++ argsString se.args, h)
        else
          let h1 := h.set a { se with recurs := se.recurs ++ [a] }
          let r := errorFuel f h1 c
          let h3 :=
            match r.2[a]? with
            | some se2 => r.2.set a { se2 with recurs := se2.recurs.dropLast }
            | none => r.2
          (se.msg ++ argsString se.args, h3)

/-- `Error()`: rendered with enough fuel (`errorFuel_stable` shows any fuel
above `unmarkedCount h` gives the same result, which is the source's
termination). -/
def goError (h : Heap) (e : HErr) : String :=
  (errorFuel (unmarkedCount h + 1) h e).1

theorem countP_range_point (p q : Nat → Bool) (a : Nat) :
    ∀ n, a < n → p a = true → q a = false → (∀ x, x ≠ a → p x = q x) →
    (List.range n).countP p = (List.range n).countP q + 1 := by
  intro n
  induction n with
  | zero => intro ha _ _ _; omega
  | succ m ih =>
    intro ha hp hq hxy
    rw [List.range_succ, List.countP_append, List.countP_append]
    by_cases hm : a = m
    · subst hm
      have hcong : (List.range a).countP p = (List.range a).countP q := by
        apply List.countP_congr
        intro x hx
        have hxa : x ≠ a := by
          have := List.mem_range.mp hx
          omega
        rw [hxy x hxa]
      rw [hcong]
      simp [List.countP_cons, hp, hq]
    · have ham : a < m := by omega
      rw [ih ham hp hq hxy]
      have hpm : p m = q m := hxy m (fun hh => hm hh.symm)
      simp [List.countP_cons, hpm]
      omega

theorem lt_length_of_get {h : Heap} {a : Nat} {se : HNode}
    (hg : h[a]? = some se) : a < h.length := by
  by_contra hcon
  rw [List.getElem?_eq_none (by omega)] at hg
  cases hg

theorem unmarkedAt_of_get {h : Heap} {a : Nat} {se : HNode} (hg : h[a]? = some se)
    (hm : se.recurs.contains a = false) : unmarkedAt h a = true := by
  unfold unmarkedAt
  rw [hg]
  simp only [Bool.not_eq_true']
  exact hm

theorem unmarked_pos {h : Heap} {a : Nat} {se : HNode} (hg : h[a]? = some se)
    (hm : se.recurs.contains a = false) : 0 < unmarkedCount h := by
  unfold unmarkedCount
  rw [List.countP_pos_iff]
  exact ⟨a, List.mem_range.mpr (lt_length_of_get hg), unmarkedAt_of_get hg hm⟩

theorem unmarked_push {h : Heap} {a : Nat} {se : HNode} (hg : h[a]? = some se)
    (hm : se.recurs.contains a = false) :
    unmarkedCount (h.set a { se with recurs := se.recurs ++ [a] }) + 1
      = unmarkedCount h := by
  have hal : a < h.length := lt_length_of_get hg
  unfold unmarkedCount
  rw [List.length_set]
  have hq : unmarkedAt (h.set a { se with recurs := se.recurs ++ [a] }) a = false := by
    unfold unmarkedAt
    rw [List.getElem?_set_self hal]
    simp
  have hxy : ∀ x, x ≠ a →
      unmarkedAt h x = unmarkedAt (h.set a { se with recurs := se.recurs ++ [a] }) x := by
    intro x hx
    unfold unmarkedAt
    rw [List.getElem?_set_ne (fun hh => hx hh.symm)]
  have := countP_range_point (unmarkedAt h)
    (unmarkedAt (h.set a { se with recurs := se.recurs ++ [a] })) a h.length hal
    (unmarkedAt_of_get hg hm) hq hxy
  omega

/-- The recursion of `Error()` terminates: once the fuel exceeds the number
of nodes not currently registered in their own guard list, the result of
`errorFuel` no longer depends on the fuel.  This holds for EVERY heap,
including heaps whose cause chains are cyclic. -/
theorem errorFuel_stable : ∀ (n : Nat) (h : Heap) (e : HErr) (f1 f2 : Nat),
    unmarkedCount h ≤ n → n < f1 → n < f2 →
    errorFuel f1 h e = errorFuel f2 h e := by
  intro n
  induction n with
  | zero =>
    intro h e f1 f2 hn hf1 hf2
    obtain ⟨g1, rfl⟩ : ∃ g1, f1 = g1 + 1 := ⟨f1 - 1, by omega⟩
    obtain ⟨g2, rfl⟩ : ∃ g2, f2 = g2 + 1 := ⟨f2 - 1, by omega⟩
    cases e with
    | base m => rfl
    | ptr a =>
      cases hg : h[a]? with
      | none => simp only [errorFuel, hg]
      | some se =>
        cases hc : se.cause with
        | none => simp only [errorFuel, hg, hc]
        | some c =>
          cases hr : se.recurs.contains a with
          | true => simp only [errorFuel, hg, hc, hr, if_true]
          | false =>
            exfalso
            have := unmarked_pos hg hr
            omega
  | succ m ih =>
    intro h e f1 f2 hn hf1 hf2
    obtain ⟨g1, rfl⟩ : ∃ g1, f1 = g1 + 1 := ⟨f1 - 1, by omega⟩
    obtain ⟨g2, rfl⟩ : ∃ g2, f2 = g2 + 1 := ⟨f2 - 1, by omega⟩
    cases e with
    | base mm => rfl
    | ptr a =>
      cases hg : h[a]? with
      | none => simp only [errorFuel, hg]
      | some se =>
        cases hc : se.cause with
        | none => simp only [errorFuel, hg, hc]
        | some c =>
          cases hr : se.recurs.contains a with
          | true => simp only [errorFuel, hg, hc, hr, if_true]
          | false =>
            have hpush := unmarked_push hg hr
            have hrec : errorFuel g1 (h.set a { se with recurs := se.recurs ++ [a] }) c
                = errorFuel g2 (h.set a { se with recurs := se.recurs ++ [a] }) c := by
              apply ih _ _ _ _ (by omega) (by omega) (by omega)
            rw [hc] at hrec
            simp only [errorFuel, hg, hc, hr, Bool.false_eq_true, if_false, hrec]

/-- Any sufficient fuel computes `goError`. -/
theorem errorFuel_goError (h : Heap) (e : HErr) (f : Nat)
    (hf : unmarkedCount h < f) :
    errorFuel f h e = errorFuel (unmarkedCount h + 1) h e :=
  errorFuel_stable (unmarkedCount h) h e f (unmarkedCount h + 1) (Nat.le_refl _) hf
    (Nat.lt_succ_self _)

/-- One step of the cause chain between heap nodes (follows the `err` field
when it points to another structured error). -/
def causeStep (h : Heap) (a : Nat) : Option Nat :=
  match h[a]? with
  | some nd =>
      match nd.cause with
      | some (.ptr b) => some b
      | _ => none
  | none => none

/-- `k` steps along the cause chain. -/
def causeChain (h : Heap) : Nat → Nat → Option Nat
  | 0, a => some a
  | k + 1, a =>
      match causeStep h a with
      | some b => causeChain h k b
      | none => none

/-- The node at `a` directly or transitively wraps itself. -/
def HasCycle (h : Heap) (a : Nat) : Prop :=
  ∃ k, causeChain h (k + 1) a = some a

/-- The rendered string of a structured node, whatever its cause is: every
branch of `Error()` ends in the dead-store overwrite
`s = se.error.Error() + se.argsString()`. -/
theorem goError_eq_msg_args {h : Heap} {a : Nat} {se : HNode}
    (hg : h[a]? = some se) :
    goError h (.ptr a) = se.msg ++ argsString se.args := by
  unfold goError
  cases hc : se.cause with
  | none => simp only [errorFuel, hg, hc]
  | some c =>
    cases hr : se.recurs.contains a with
    | true => simp only [errorFuel, hg, hc, hr, if_true]
    | false => simp only [errorFuel, hg, hc, hr, Bool.false_eq_true, if_false]

/-- C4: for a structured error whose cause chain contains a cycle, `Error()`
terminates — the fuel semantics stabilises as soon as the fuel exceeds the
number of nodes not already mid-render — and the cyclic segment contributes
nothing to the output beyond the non-recursive part of the message: the
result is exactly `message + argsString` (the guard suppresses the reentrant
render, and the source then overwrites `s` with the non-recursive part). -/
theorem error_cycle_terminates (h : Heap) (a : Nat) (se : HNode)
    (_hcyc : HasCycle h a) (hg : h[a]? = some se) :
    (∀ f, unmarkedCount h < f →
        errorFuel f h (.ptr a) = errorFuel (unmarkedCount h + 1) h (.ptr a))
    ∧ goError h (.ptr a) = se.msg ++ argsString se.args := by
  refine ⟨fun f hf => errorFuel_goError h (.ptr a) f hf, goError_eq_msg_args hg⟩

/-- The one-node heap whose single error is its own cause. -/
def cycleHeap : Heap :=
  [{ msg := "m", cause := some (.ptr 0), args := [], validArgs := [],
     recurs := [], sealed := false, locked := false, cloneWrapped := false }]

/-- Witness for C4 at the self-wrapping error: the cycle hypothesis holds
and rendering yields just the message. -/
theorem error_cycle_terminates_witness :
    HasCycle cycleHeap 0 ∧ goError cycleHeap (.ptr 0) = "m" := by
  refine ⟨⟨0, by decide⟩, ?_⟩
  exact ((error_cycle_terminates cycleHeap 0 _ ⟨0, by decide⟩ rfl).2).trans (by decide)

/-- C1: the claim `Wrap(New("boom"), "context").Error() = "context; boom"`
fails on the code: the `fmt.Sprintf("%s%s; %s", ...)` result inside
`Error()` is unconditionally overwritten by `s = se.error.Error() +
se.argsString()` before `end`, so the cause contributes nothing and the
result is `"context"`.  The no-cause half of the claim,
`New("boom").Error() = "boom"`, does hold. -/
theorem error_rendering_code_bug :
    (let p1 := goNew [] "boom"
     (goWrap p1.1 (.ptr p1.2) "context" []).map (fun q => goError q.1 (.ptr q.2)))
      = some "context"
    ∧ goError (goNew [] "boom").1 (.ptr (goNew [] "boom").2) = "boom"
    ∧ "context" ≠ "context; boom" := by
  refine ⟨by decide, by decide, by decide⟩

/-- C3 counterexample: the cause passed to `Wrap` is the address-0 error
`New("boom")`, but `Unwrap()` on `Wrap`'s result returns the address-1 error
(the internal receiver that `CloneWrap` pointed the returned clone at), not
the attached cause. -/
theorem unwrap_counterexample :
    (let p1 := goNew [] "boom"
     (goWrap p1.1 (.ptr p1.2) "context" []).map (fun q => goUnwrap q.1 q.2))
      = some (some (.ptr 1))
    ∧ some (HErr.ptr 1) ≠ some (HErr.ptr 0) := by
  refine ⟨by decide, by decide⟩

/-- C3 amended: `se.Err(c)` and `Wrap(c, m)` return a clone whose `Unwrap()`
is the pre-clone receiver; `Unwrap()` on that receiver returns exactly `c`
(so the cause is reached after two unwraps, and `errors.Is`-style chain
walking still reaches `c`); `Unwrap()` of an error with no attached cause
(e.g. fresh `New`) returns nil. -/
theorem unwrap_amended :
    (∀ (h : Heap) (a : Nat) (se : HNode) (c : HErr), h[a]? = some se →
       ∃ h2 a2, goErr h a c [] = some (h2, a2)
         ∧ goUnwrap h2 a2 = some (.ptr a) ∧ goUnwrap h2 a = some c)
    ∧ (∀ (h : Heap) (c : HErr) (msg : String),
       ∃ h2 a2, goWrap h c msg [] = some (h2, a2)
         ∧ goUnwrap h2 a2 = some (.ptr h.length) ∧ goUnwrap h2 h.length = some c)
    ∧ (∀ (h : Heap) (msg : String),
        goUnwrap (goNew h msg).1 (goNew h msg).2 = none) := by
  have part1 : ∀ (h : Heap) (a : Nat) (se : HNode) (c : HErr), h[a]? = some se →
      ∃ h2 a2, goErr h a c [] = some (h2, a2)
        ∧ goUnwrap h2 a2 = some (.ptr a) ∧ goUnwrap h2 a = some c := by
    intro h a se c hg
    have hal : a < h.length := lt_length_of_get hg
    have hset : (h.set a { se with cause := some c })[a]?
        = some { se with cause := some c } := List.getElem?_set_self hal
    have hgoErr : goErr h a c []
        = some (cloneWrap (h.set a { se with cause := some c }) a) := by
      unfold goErr
      rw [hg]
      rfl
    have hclone : cloneWrap (h.set a { se with cause := some c }) a
        = ((h.set a { se with cause := some c }) ++
            [{ msg := se.msg, cause := some (.ptr a), args := se.args,
               validArgs := se.validArgs, recurs := se.recurs, sealed := se.sealed,
               locked := false, cloneWrapped := true }],
           (h.set a { se with cause := some c }).length) := by
      unfold cloneWrap
      rw [hset]
    refine ⟨_, _, hgoErr.trans (by rw [hclone]), ?_, ?_⟩
    · unfold goUnwrap
      rw [List.getElem?_concat_length]
    · unfold goUnwrap
      rw [List.getElem?_append, if_pos (by rw [List.length_set]; exact hal), hset]
  refine ⟨part1, ?_, ?_⟩
  · intro h c msg
    have hg0 : (goNew h msg).1[(goNew h msg).2]?
        = some { msg := msg, cause := none, args := [], validArgs := [], recurs := [],
                 sealed := false, locked := false, cloneWrapped := false } :=
      List.getElem?_concat_length _ _
    obtain ⟨h2, a2, herr, hu1, hu2⟩ := part1 (goNew h msg).1 (goNew h msg).2 _ c hg0
    exact ⟨h2, a2, by unfold goWrap; rw [herr]; rfl, hu1, hu2⟩
  · intro h msg
    unfold goUnwrap goNew
    rw [List.getElem?_concat_length]

/-- Witness for C3's amended claim at a concrete error and cause. -/
theorem unwrap_amended_witness :
    ∃ h2 a2,
      goErr [{ msg := "base", cause := none, args := [], validArgs := [], recurs := [],
               sealed := false, locked := false, cloneWrapped := false }]
          0 (.base "boom") []
        = some (h2, a2)
      ∧ goUnwrap h2 a2 = some (.ptr 0)
      ∧ goUnwrap h2 0 = some (.base "boom") :=
  unwrap_amended.1 _ 0 _ (.base "boom") rfl

/-- The heap for C8's witness: one plain error `New("m")`. -/
def argsHeap : Heap :=
  [{ msg := "m", cause := none, args := [], validArgs := [], recurs := [],
     sealed := false, locked := false, cloneWrapped := false }]

/-- C8: `Args(pairs...)` fails fatally (panic, modelled as `none`) exactly
when the number of arguments is odd; on an even count it replaces the
attribute list: both the returned error and the receiver then carry exactly
the given pairs, whatever the previous list was. -/
theorem args_replace_iff_odd_panic (h : Heap) (a : Nat) (se : HNode)
    (args : List GoVal) (hg : h[a]? = some se) :
    (goArgs h a args = none ↔ args.length % 2 = 1)
    ∧ ∀ h2 a2, goArgs h a args = some (h2, a2) →
        (h2[a2]?).map HNode.args = some args
        ∧ (h2[a]?).map HNode.args = some args := by
  have hal : a < h.length := lt_length_of_get hg
  have hset : (h.set a { se with args := args })[a]?
      = some { se with args := args } := List.getElem?_set_self hal
  have hclone : cloneWrap (h.set a { se with args := args }) a
      = ((h.set a { se with args := args }) ++
          [{ msg := se.msg, cause := some (.ptr a), args := args,
             validArgs := se.validArgs, recurs := se.recurs, sealed := se.sealed,
             locked := false, cloneWrapped := true }],
         (h.set a { se with args := args }).length) := by
    unfold cloneWrap
    rw [hset]
  have hsome : args.length % 2 = 0 →
      goArgs h a args = some (cloneWrap (h.set a { se with args := args }) a) := by
    intro he
    unfold goArgs
    rw [if_neg (by omega), hg]
  constructor
  · constructor
    · intro hnone
      by_contra hodd
      have he : args.length % 2 = 0 := by omega
      rw [hsome he] at hnone
      cases hnone
    · intro hodd
      unfold goArgs
      rw [if_pos (by omega)]
  · intro h2 a2 heq
    have he : args.length % 2 = 0 := by
      by_contra hodd
      unfold goArgs at heq
      rw [if_pos hodd] at heq
      cases heq
    rw [hsome he, hclone] at heq
    have heq2 := Option.some.inj heq
    injection heq2 with hh2 ha2
    subst hh2
    subst ha2
    constructor
    · rw [List.getElem?_concat_length]
      rfl
    · rw [List.getElem?_append, if_pos (by rw [List.length_set]; exact hal), hset]
      rfl

/-- Witness for C8: an even pair list on `New("m")` replaces the list;
the iff shows a 2-element list does not panic. -/
theorem args_replace_iff_odd_panic_witness :
    (goArgs argsHeap 0 [.str "k", .int 7] = none
      ↔ ([GoVal.str "k", GoVal.int 7].length % 2 = 1))
    ∧ ∀ h2 a2, goArgs argsHeap 0 [.str "k", .int 7] = some (h2, a2) →
        (h2[a2]?).map HNode.args = some [GoVal.str "k", GoVal.int 7]
        ∧ (h2[0]?).map HNode.args = some [GoVal.str "k", GoVal.int 7] :=
  args_replace_iff_odd_panic argsHeap 0 _ [.str "k", .int 7] rfl

/-- Modelled from the spec's words for C9: one `" [key=value]"` display
segment per attribute pair, string values single-quoted, other values in
their plain textual form. -/
def specAttrSeg (k : String) (v : GoVal) : String :=
  " [" ++ k ++ "=" ++
    (match v with
     | .str s => "\x27" ++ s ++ "\x27"
     | v2 => fmtV v2) ++ "]"

/-- Modelled from the spec's words: the concatenation of the display
segments of all attribute pairs. -/
def specAttrsRender : List (String × GoVal) → String
  | [] => ""
  | p :: rest => specAttrSeg p.1 p.2 ++ specAttrsRender rest

/-- An args list made of key/value pairs. -/
def flattenPairs : List (String × GoVal) → List GoVal
  | [] => []
  | p :: rest => .str p.1 :: p.2 :: flattenPairs rest

theorem argsString_flattenPairs : ∀ pairs : List (String × GoVal),
    argsString (flattenPairs pairs) = specAttrsRender pairs := by
  intro pairs
  induction pairs with
  | nil => rfl
  | cons p rest ih =>
    simp only [flattenPairs, argsString, specAttrsRender, specAttrSeg, fmtV, ih]

/-- C9: rendering a structured error whose args are key/value pairs yields
the message followed by one `" [key=value]"` segment per pair (string
values single-quoted, others in plain textual form); in particular
`New("m").Args("a", 1, "b", 2).Error() = "m [a=1] [b=2]"` (the `Args` result
carries a clone-wrapped cause, but the rendering is the same string). -/
theorem error_args_rendering :
    (∀ (h : Heap) (a : Nat) (se : HNode) (pairs : List (String × GoVal)),
        h[a]? = some se → se.cause = none → se.args = flattenPairs pairs →
        goError h (.ptr a) = se.msg ++ specAttrsRender pairs)
    ∧ (let p := goNew [] "m"
       (goArgs p.1 p.2 [.str "a", .int 1, .str "b", .int 2]).map
           (fun q => goError q.1 (.ptr q.2)) = some "m [a=1] [b=2]") := by
  constructor
  · intro h a se pairs hg _ hargs
    rw [goError_eq_msg_args hg, hargs, argsString_flattenPairs]
  · decide

/-- Witness for C9 at a concrete no-cause error with one pair. -/
theorem error_args_rendering_witness :
    goError [{ msg := "m", cause := none, args := [.str "a", .int 1], validArgs := [],
               recurs := [], sealed := false, locked := false, cloneWrapped := false }]
        (.ptr 0)
      = "m [a=1]" :=
  (error_args_rendering.1 _ 0 _ [("a", .int 1)] rfl rfl rfl).trans (by decide)

/-- Two nodes are equal except possibly in their recorded `validArgs`
allow-list. -/
def nodeRel (n1 n2 : HNode) : Prop :=
  n1.msg = n2.msg ∧ n1.cause = n2.cause ∧ n1.args = n2.args ∧
  n1.recurs = n2.recurs ∧ n1.sealed = n2.sealed ∧ n1.locked = n2.locked ∧
  n1.cloneWrapped = n2.cloneWrapped

instance (n1 n2 : HNode) : Decidable (nodeRel n1 n2) := by
  unfold nodeRel
  infer_instance

/-- `nodeRel` lifted to optional lookups. -/
def optNodeRel : Option HNode → Option HNode → Prop
  | none, none => True
  | some n1, some n2 => nodeRel n1 n2
  | _, _ => False

instance : (o1 o2 : Option HNode) → Decidable (optNodeRel o1 o2)
  | none, none => isTrue trivial
  | some n1, some n2 => inferInstanceAs (Decidable (nodeRel n1 n2))
  | some _, none => isFalse (fun hh => hh)
  | none, some _ => isFalse (fun hh => hh)

/-- Two heaps of structured errors that differ only in recorded `validArgs`
lists. -/
def heapRel (h1 h2 : Heap) : Prop :=
  h1.length = h2.length ∧ ∀ a, a < h1.length → optNodeRel h1[a]? h2[a]?

instance (h1 h2 : Heap) : Decidable (heapRel h1 h2) := by
  unfold heapRel
  infer_instance

theorem heapRel_get {h1 h2 : Heap} (hr : heapRel h1 h2) (a : Nat) :
    optNodeRel h1[a]? h2[a]? := by
  by_cases hla : a < h1.length
  · exact hr.2 a hla
  · rw [List.getElem?_eq_none (by omega),
      List.getElem?_eq_none (show h2.length ≤ a by rw [← hr.1]; omega)]
    trivial

theorem heapRel_set {h1 h2 : Heap} (hr : heapRel h1 h2) {a : Nat} {n1 n2 : HNode}
    (hn : nodeRel n1 n2) : heapRel (h1.set a n1) (h2.set a n2) := by
  constructor
  · rw [List.length_set, List.length_set]
    exact hr.1
  · intro x hx
    rw [List.length_set] at hx
    by_cases hxa : a = x
    · subst hxa
      rw [List.getElem?_set_self hx, List.getElem?_set_self (by rw [← hr.1]; exact hx)]
      exact hn
    · rw [List.getElem?_set_ne hxa, List.getElem?_set_ne hxa]
      exact heapRel_get hr x

theorem heapRel_append {h1 h2 : Heap} (hr : heapRel h1 h2) {n1 n2 : HNode}
    (hn : nodeRel n1 n2) : heapRel (h1 ++ [n1]) (h2 ++ [n2]) := by
  constructor
  · simp [hr.1]
  · intro x hx
    rw [List.getElem?_append, List.getElem?_append]
    by_cases hlt : x < h1.length
    · rw [if_pos hlt, if_pos (by rw [← hr.1]; exact hlt)]
      exact heapRel_get hr x
    · rw [List.length_append, List.length_singleton] at hx
      have hx1 : x = h1.length := by omega
      rw [if_neg hlt, if_neg (by rw [← hr.1]; exact hlt)]
      subst hx1
      rw [Nat.sub_self, ← hr.1, Nat.sub_self]
      exact hn

theorem heapRel_unmarkedAt {h1 h2 : Heap} (hr : heapRel h1 h2) (a : Nat) :
    unmarkedAt h1 a = unmarkedAt h2 a := by
  have hget := heapRel_get hr a
  unfold unmarkedAt
  cases hg1 : h1[a]? with
  | none =>
    cases hg2 : h2[a]? with
    | none => rfl
    | some n2 =>
      rw [hg1, hg2] at hget
      exact hget.elim
  | some n1 =>
    cases hg2 : h2[a]? with
    | none =>
      rw [hg1, hg2] at hget
      exact hget.elim
    | some n2 =>
      rw [hg1, hg2] at hget
      show (!n1.recurs.contains a) = (!n2.recurs.contains a)
      rw [hget.2.2.2.1]

theorem heapRel_unmarkedCount {h1 h2 : Heap} (hr : heapRel h1 h2) :
    unmarkedCount h1 = unmarkedCount h2 := by
  unfold unmarkedCount
  rw [hr.1]
  apply List.countP_congr
  intro x _
  rw [heapRel_unmarkedAt hr x]

/-- Rendering is a bisimulation for `heapRel`: related heaps render the same
string and stay related. -/
theorem errorFuel_rel : ∀ (f : Nat) (h1 h2 : Heap) (e : HErr), heapRel h1 h2 →
    (errorFuel f h1 e).1 = (errorFuel f h2 e).1
    ∧ heapRel (errorFuel f h1 e).2 (errorFuel f h2 e).2 := by
  intro f
  induction f with
  | zero => exact fun h1 h2 e hr => ⟨rfl, hr⟩
  | succ g ih =>
    intro h1 h2 e hr
    cases e with
    | base m => exact ⟨rfl, hr⟩
    | ptr a =>
      have hget := heapRel_get hr a
      cases hg1 : h1[a]? with
      | none =>
        cases hg2 : h2[a]? with
        | none =>
          refine ⟨?_, ?_⟩ <;> simp only [errorFuel, hg1, hg2]
          exact hr
        | some n2 =>
          rw [hg1, hg2] at hget
          exact hget.elim
      | some n1 =>
        cases hg2 : h2[a]? with
        | none =>
          rw [hg1, hg2] at hget
          exact hget.elim
        | some n2 =>
          rw [hg1, hg2] at hget
          obtain ⟨hmsg, hcause, hargs, hrecurs, hseal, hlock, hcw⟩ := hget
          cases hc1 : n1.cause with
          | none =>
            have hc2 : n2.cause = none := by rw [← hcause, hc1]
            refine ⟨?_, ?_⟩ <;> simp only [errorFuel, hg1, hg2, hc1, hc2]
            · rw [hmsg, hargs]
            · exact hr
          | some c =>
            have hc2 : n2.cause = some c := by rw [← hcause, hc1]
            cases hcont : n1.recurs.contains a with
            | true =>
              have hcont2 : n2.recurs.contains a = true := by rw [← hrecurs, hcont]
              refine ⟨?_, ?_⟩ <;>
                simp only [errorFuel, hg1, hg2, hc1, hc2, hcont, hcont2, if_true]
              · rw [hmsg, hargs]
              · exact hr
            | false =>
              have hcont2 : n2.recurs.contains a = false := by rw [← hrecurs, hcont]
              have hpushrel : heapRel
                  (h1.set a { n1 with cause := some c, recurs := n1.recurs ++ [a] })
                  (h2.set a { n2 with cause := some c, recurs := n2.recurs ++ [a] }) :=
                heapRel_set hr ⟨hmsg, rfl, hargs, by rw [hrecurs], hseal, hlock, hcw⟩
              obtain ⟨_, hrel2⟩ := ih _ _ c hpushrel
              have hget2 := heapRel_get hrel2 a
              refine ⟨?_, ?_⟩ <;>
                simp only [errorFuel, hg1, hg2, hc1, hc2, hcont, hcont2,
                  Bool.false_eq_true, if_false]
              · rw [hmsg, hargs]
              · cases hq1 : (errorFuel g
                    (h1.set a { n1 with cause := some c, recurs := n1.recurs ++ [a] })
                    c).2[a]? with
                | none =>
                  cases hq2 : (errorFuel g
                      (h2.set a { n2 with cause := some c, recurs := n2.recurs ++ [a] })
                      c).2[a]? with
                  | none =>
                    exact hrel2
                  | some m2 =>
                    rw [hq1, hq2] at hget2
                    exact hget2.elim
                | some m1 =>
                  cases hq2 : (errorFuel g
                      (h2.set a { n2 with cause := some c, recurs := n2.recurs ++ [a] })
                      c).2[a]? with
                  | none =>
                    rw [hq1, hq2] at hget2
                    exact hget2.elim
                  | some m2 =>
                    rw [hq1, hq2] at hget2
                    exact heapRel_set hrel2
                      ⟨hget2.1, hget2.2.1, hget2.2.2.1, by rw [hget2.2.2.2.1],
                        hget2.2.2.2.2.1, hget2.2.2.2.2.2.1, hget2.2.2.2.2.2.2⟩

theorem cloneWrap_rel {h1 h2 : Heap} (hr : heapRel h1 h2) (a : Nat) :
    (cloneWrap h1 a).2 = (cloneWrap h2 a).2
    ∧ heapRel (cloneWrap h1 a).1 (cloneWrap h2 a).1 := by
  have hget := heapRel_get hr a
  cases hg1 : h1[a]? with
  | none =>
    cases hg2 : h2[a]? with
    | none =>
      unfold cloneWrap
      rw [hg1, hg2]
      exact ⟨rfl, hr⟩
    | some n2 =>
      rw [hg1, hg2] at hget
      exact hget.elim
  | some n1 =>
    cases hg2 : h2[a]? with
    | none =>
      rw [hg1, hg2] at hget
      exact hget.elim
    | some n2 =>
      rw [hg1, hg2] at hget
      unfold cloneWrap
      rw [hg1, hg2]
      exact ⟨hr.1, heapRel_append hr
        ⟨hget.1, rfl, hget.2.2.1, hget.2.2.2.1, hget.2.2.2.2.1, rfl, rfl⟩⟩

/-- C10: the `validArgs` allow-list recorded by `ValidArgs` is never
consulted: on two heaps whose errors differ only in recorded `validArgs`
lists, `Error`, `Attrs`, `Attr` return identical results, and `Args` panics
identically, returns the same address, and leaves heaps that again differ
only in `validArgs`. -/
theorem validArgs_never_consulted (h1 h2 : Heap) (hr : heapRel h1 h2) :
    (∀ e, goError h1 e = goError h2 e)
    ∧ (∀ a, goAttrs h1 a = goAttrs h2 a)
    ∧ (∀ a k, goAttr h1 a k = goAttr h2 a k)
    ∧ (∀ a args, (goArgs h1 a args = none ↔ goArgs h2 a args = none)
        ∧ ∀ p q, goArgs h1 a args = some p → goArgs h2 a args = some q →
            p.2 = q.2 ∧ heapRel p.1 q.1) := by
  have hattrs : ∀ a, goAttrs h1 a = goAttrs h2 a := by
    intro a
    have hget := heapRel_get hr a
    unfold goAttrs
    cases hg1 : h1[a]? with
    | none =>
      cases hg2 : h2[a]? with
      | none => rfl
      | some n2 =>
        rw [hg1, hg2] at hget
        exact hget.elim
    | some n1 =>
      cases hg2 : h2[a]? with
      | none =>
        rw [hg1, hg2] at hget
        exact hget.elim
      | some n2 =>
        rw [hg1, hg2] at hget
        show attrsOf n1.args = attrsOf n2.args
        rw [hget.2.2.1]
  refine ⟨?_, hattrs, ?_, ?_⟩
  · intro e
    unfold goError
    rw [heapRel_unmarkedCount hr]
    exact (errorFuel_rel _ h1 h2 e hr).1
  · intro a k
    unfold goAttr
    rw [hattrs a]
  · intro a args
    by_cases hodd : args.length % 2 = 0
    · have hget := heapRel_get hr a
      cases hg1 : h1[a]? with
      | none =>
        cases hg2 : h2[a]? with
        | none =>
          have e1 : goArgs h1 a args = none := by
            unfold goArgs
            rw [if_neg (by omega), hg1]
          have e2 : goArgs h2 a args = none := by
            unfold goArgs
            rw [if_neg (by omega), hg2]
          refine ⟨by rw [e1, e2], ?_⟩
          intro p q hp _
          rw [e1] at hp
          cases hp
        | some n2 =>
          rw [hg1, hg2] at hget
          exact hget.elim
      | some n1 =>
        cases hg2 : h2[a]? with
        | none =>
          rw [hg1, hg2] at hget
          exact hget.elim
        | some n2 =>
          rw [hg1, hg2] at hget
          have e1 : goArgs h1 a args
              = some (cloneWrap (h1.set a { n1 with args := args }) a) := by
            unfold goArgs
            rw [if_neg (by omega), hg1]
          have e2 : goArgs h2 a args
              = some (cloneWrap (h2.set a { n2 with args := args }) a) := by
            unfold goArgs
            rw [if_neg (by omega), hg2]
          have hsetrel : heapRel (h1.set a { n1 with args := args })
              (h2.set a { n2 with args := args }) :=
            heapRel_set hr
              ⟨hget.1, hget.2.1, rfl, hget.2.2.2.1, hget.2.2.2.2.1,
                hget.2.2.2.2.2.1, hget.2.2.2.2.2.2⟩
          have hcw := cloneWrap_rel hsetrel a
          refine ⟨by rw [e1, e2]; simp, ?_⟩
          intro p q hp hq
          rw [e1] at hp
          rw [e2] at hq
          have hp2 := Option.some.inj hp
          have hq2 := Option.some.inj hq
          rw [← hp2, ← hq2]
          exact ⟨hcw.1, hcw.2⟩
    · have e1 : goArgs h1 a args = none := by
        unfold goArgs
        rw [if_pos (by omega)]
      have e2 : goArgs h2 a args = none := by
        unfold goArgs
        rw [if_pos (by omega)]
      refine ⟨by rw [e1, e2], ?_⟩
      intro p q hp _
      rw [e1] at hp
      cases hp

/-- One heap for C10's witness: `validArgs = ["x"]`. -/
def validHeapA : Heap :=
  [{ msg := "m", cause := none, args := [.str "a", .int 1], validArgs := ["x"],
     recurs := [], sealed := true, locked := false, cloneWrapped := false }]

/-- The other heap for C10's witness: same error, `validArgs = ["y", "z"]`. -/
def validHeapB : Heap :=
  [{ msg := "m", cause := none, args := [.str "a", .int 1], validArgs := ["y", "z"],
     recurs := [], sealed := true, locked := false, cloneWrapped := false }]

/-- Witness for C10 on two concrete errors differing only in `validArgs`. -/
theorem validArgs_never_consulted_witness :
    goError validHeapA (.ptr 0) = goError validHeapB (.ptr 0)
    ∧ goAttrs validHeapA 0 = goAttrs validHeapB 0
    ∧ goAttr validHeapA 0 "a" = goAttr validHeapB 0 "a"
    ∧ (goArgs validHeapA 0 [] = none ↔ goArgs validHeapB 0 [] = none) := by
  have hrel : heapRel validHeapA validHeapB := by decide
  obtain ⟨he, hat, hattr, hargs⟩ := validArgs_never_consulted validHeapA validHeapB hrel
  exact ⟨he (.ptr 0), hat 0, hattr 0 "a", (hargs 0 []).1⟩

end Serr
